import Mathlib

/-!
Verification of the crossword CSP solver in week3/crossword/generate.py
(class CrosswordCreator).  The Python code is shallowly embedded: the
mutable dictionary of domains becomes a function from variables to word
lists, the mutable assignment dictionary becomes an insertion-ordered
association list, and every failure mode of the Python code (including
runtime exceptions) is represented explicitly in an error type.
-/

namespace CrosswordGen

/-- A slot of the grid, as in crossword.py: row, column, direction and
length, compared structurally. -/
structure Variable where
  row : Nat
  col : Nat
  down : Bool
  length : Nat
deriving DecidableEq

/-- A candidate word, a Python string. -/
abbrev Word := List Char

/-- The domain store: each variable maps to its current candidate list.
In Python this is the dict self.domains whose keys are the puzzle
variables; values of the function outside that key set are never read. -/
abbrev Domains := Variable → List Word

/-- The assignment dict: insertion-ordered association list. -/
abbrev Assignment := List (Variable × Word)

/-- Modelled from the spec: crossword.py (the PuzzleModel component) is
not under src/.  Per the spec it holds the fixed variable set, the
vocabulary and the read-only overlap table; neighbors are the variables
that share a crossing cell. -/
structure Crossword where
  vars : List Variable
  words : List Word
  overlaps : Variable → Variable → Option (Nat × Nat)

/-- Modelled from the spec: Crossword.neighbors in crossword.py returns
the variables u distinct from v whose overlap entry with v is present. -/
def Crossword.neighbors (cw : Crossword) (v : Variable) : List Variable :=
  cw.vars.filter (fun u => !(u == v) && (cw.overlaps u v).isSome)

/-- Python string indexing w[i]; out-of-range access (an IndexError in
Python) is shimmed with a blank character and never arises on the
in-range regime the claims quantify over. -/
def charAt (w : Word) (i : Nat) : Char :=
  w.getD i ' '

/-- Dict lookup, assignment[v] / v in assignment. -/
def dictGet (a : Assignment) (v : Variable) : Option Word :=
  match a with
  | [] => none
  | (u, w) :: rest => if u = v then some w else dictGet rest v

/-- Dict update assignment.update({v: w}): replaces in place when the key
is present, appends otherwise. -/
def dictUpdate (a : Assignment) (v : Variable) (w : Word) : Assignment :=
  match a with
  | [] => [(v, w)]
  | (u, w0) :: rest =>
    if u = v then (v, w) :: rest else (u, w0) :: dictUpdate rest v w

/-- Pointwise domain-store update, self.domains[x] := l. -/
def updateDom (d : Domains) (x : Variable) (l : List Word) : Domains :=
  fun v => if v = x then l else d v

/-- CrosswordCreator.__init__: every variable starts with a copy of the
full vocabulary. -/
def initDomains (cw : Crossword) : Domains :=
  fun _ => cw.words

/-- CrosswordCreator.enforce_node_consistency: drop from each domain the
words whose length differs from the length of the variable. -/
def enforceNodeConsistency (d : Domains) : Domains :=
  fun v => (d v).filter (fun w => w.length == v.length)

/-- Inner loop of CrosswordCreator.revise: word X of domains[x] has at
least one corresponding word Y in domains[y]. -/
def hasCorrespondence (dy : List Word) (ia ib : Nat) (w : Word) : Bool :=
  dy.any (fun w2 => charAt w ia == charAt w2 ib)

/-- CrosswordCreator.revise: on a present overlap, remove from domains[x]
the words without correspondence in domains[y]; the revised flag is set
exactly when some word was removed. -/
def revise (cw : Crossword) (d : Domains) (x y : Variable) :
    Domains × Bool :=
  match cw.overlaps x y with
  | none => (d, false)
  | some (ia, ib) =>
    (updateDom d x ((d x).filter (hasCorrespondence (d y) ia ib)),
     (d x).any (fun w => ! hasCorrespondence (d y) ia ib w))

/-- Arcs re-enqueued after revising x against y: (z, x) for every
neighbor z of x other than y. -/
def requeuedArcs (cw : Crossword) (x y : Variable) :
    List (Variable × Variable) :=
  ((cw.neighbors x).filter (fun z => !(z == y))).map (fun z => (z, x))

/-- The while loop of CrosswordCreator.ac3, with explicit fuel; `none`
means the fuel ran out (which a sufficiency theorem rules out for the
fuel used by ac3 below). -/
def ac3Loop (cw : Crossword) :
    Nat → Domains → List (Variable × Variable) → Option (Bool × Domains)
  | _, d, [] => some (true, d)
  | 0, _, _ :: _ => none
  | fuel + 1, d, (x, y) :: rest =>
    let r := revise cw d x y
    if r.2 then
      if (r.1 x).length = 0 then some (false, r.1)
      else ac3Loop cw fuel r.1 (rest ++ requeuedArcs cw x y)
    else ac3Loop cw fuel r.1 rest

/-- Sum of the sizes of the domains of the puzzle variables. -/
def totalDomainSize (cw : Crossword) (d : Domains) : Nat :=
  (cw.vars.map (fun v => (d v).length)).sum

/-- An upper bound on the number of neighbors of any puzzle variable. -/
def maxNbrCount (cw : Crossword) : Nat :=
  (cw.vars.map (fun v => (cw.neighbors v).length)).foldr max 0

/-- Fuel sufficient for ac3Loop: every iteration either strictly shrinks
a domain (re-enqueuing at most maxNbrCount arcs) or shortens the queue. -/
def ac3Fuel (cw : Crossword) (d : Domains)
    (q : List (Variable × Variable)) : Nat :=
  q.length + totalDomainSize cw d * maxNbrCount cw + 1

/-- Initial worklist of CrosswordCreator.ac3 when called with arcs=None:
every (i, j) with j a neighbor of i. -/
def initialArcs (cw : Crossword) : List (Variable × Variable) :=
  cw.vars.flatMap (fun i => (cw.neighbors i).map (fun j => (i, j)))

/-- CrosswordCreator.ac3: run the worklist loop on the given arcs (or on
the full arc set) with sufficient fuel; the result also carries the
final domain store, which the Python code mutates in place. -/
def ac3 (cw : Crossword) (d : Domains)
    (arcs : Option (List (Variable × Variable))) : Bool × Domains :=
  let q := match arcs with
    | none => initialArcs cw
    | some a => a
  (ac3Loop cw (ac3Fuel cw d q) d q).getD (true, d)

/-- CrosswordCreator.assignment_complete: every puzzle variable is a key
of the assignment. -/
def assignmentComplete (cw : Crossword) (a : Assignment) : Bool :=
  cw.vars.all (fun v => (dictGet a v).isSome)

/-- CrosswordCreator.consistent: lengths match, values are pairwise
distinct (len(set(values)) == len(values)), and every pair of assigned
variables with a present overlap entry agrees on the shared letter.
The overlap dict of crossword.py is keyed by the ordered pairs of
distinct puzzle variables. -/
def consistent (cw : Crossword) (a : Assignment) : Bool :=
  a.all (fun p => p.2.length == p.1.length) &&
  ((a.map Prod.snd).dedup.length == (a.map Prod.snd).length) &&
  (cw.vars.all fun v1 => cw.vars.all fun v2 =>
    if v1 = v2 then true
    else match cw.overlaps v1 v2 with
      | none => true
      | some (ia, ib) =>
        match dictGet a v1, dictGet a v2 with
        | some w1, some w2 => charAt w1 ia == charAt w2 ib
        | _, _ => true)

/-- The consistency conditions in the words of the claim: bound words
have the length of their variable, no word is bound to two variables,
and bound variables with a defined overlap agree on the shared letter. -/
def ClaimConsistent (cw : Crossword) (a : Assignment) : Prop :=
  (∀ p ∈ a, (p : Variable × Word).2.length = p.1.length) ∧
  (∀ p ∈ a, ∀ q ∈ a, (p : Variable × Word).1 ≠ (q : Variable × Word).1 →
    p.2 ≠ q.2) ∧
  (∀ v1 ∈ cw.vars, ∀ v2 ∈ cw.vars, v1 ≠ v2 →
    ∀ ia ib, cw.overlaps v1 v2 = some (ia, ib) →
      ∀ w1 w2, dictGet a v1 = some w1 → dictGet a v2 = some w2 →
        charAt w1 ia = charAt w2 ib)

/-- Ascending comparison by a natural-number key, the order used by the
stable Python sorted(..., key=...). -/
def keyLe {α : Type} (key : α → Nat) (a b : α) : Prop :=
  key a ≤ key b

instance {α : Type} (key : α → Nat) : DecidableRel (keyLe key) :=
  fun a b => Nat.decLe (key a) (key b)

instance {α : Type} (key : α → Nat) : IsTotal α (keyLe key) :=
  ⟨fun a b => Nat.le_total (key a) (key b)⟩

instance {α : Type} (key : α → Nat) : IsTrans α (keyLe key) :=
  ⟨fun _ _ _ hab hbc => Nat.le_trans hab hbc⟩

/-- Descending comparison by key, Python sorted(..., reverse=True). -/
def keyGe {α : Type} (key : α → Nat) (a b : α) : Prop :=
  key b ≤ key a

instance {α : Type} (key : α → Nat) : DecidableRel (keyGe key) :=
  fun a b => Nat.decLe (key b) (key a)

instance {α : Type} (key : α → Nat) : IsTotal α (keyGe key) :=
  ⟨fun a b => Nat.le_total (key b) (key a)⟩

instance {α : Type} (key : α → Nat) : IsTrans α (keyGe key) :=
  ⟨fun _ _ _ hab hbc => Nat.le_trans hbc hab⟩

/-- Stable ascending sort by key: Python sorted(l, key=key). -/
def pySortAsc {α : Type} (key : α → Nat) (l : List α) : List α :=
  List.insertionSort (keyLe key) l

/-- Stable descending sort by key: sorted(l, key=key, reverse=True). -/
def pySortDesc {α : Type} (key : α → Nat) (l : List α) : List α :=
  List.insertionSort (keyGe key) l

/-- Conflict score of CrosswordCreator.order_domain_values: over the
unassigned neighbors of var with a present overlap, the number of
neighbor words whose overlap letter differs from that of w. -/
def ruleOutCount (cw : Crossword) (d : Domains) (a : Assignment)
    (var : Variable) (w : Word) : Nat :=
  ((cw.neighbors var).filter (fun n => (dictGet a n).isNone)).foldr
    (fun n acc =>
      match cw.overlaps var n with
      | none => acc
      | some (ia, ib) =>
        ((d n).filter (fun w2 => !(charAt w ia == charAt w2 ib))).length
          + acc)
    0

/-- CrosswordCreator.order_domain_values: the domain of var sorted
ascending by conflict score (the Python set holds no duplicate words). -/
def orderDomainValues (cw : Crossword) (d : Domains) (var : Variable)
    (a : Assignment) : List Word :=
  pySortAsc (ruleOutCount cw d a var) (d var)

/-- The unassigned list of select_unassigned_variable: each variable
not in the assignment paired with its domain size. -/
def unassignedPairs (cw : Crossword) (d : Domains) (a : Assignment) :
    List (Variable × Nat) :=
  (cw.vars.filter (fun v => (dictGet a v).isNone)).map
    (fun v => (v, (d v).length))

/-- The variable ordered = sorted(unassigned, key=itemgetter(1)). -/
def minQueue (cw : Crossword) (d : Domains) (a : Assignment) :
    List (Variable × Nat) :=
  pySortAsc (fun p => p.2) (unassignedPairs cw d a)

/-- The list min_unassigned: first components of the sorted entries
whose domain size equals k (the size at the head). -/
def minVars (cw : Crossword) (d : Domains) (a : Assignment) (k : Nat) :
    List Variable :=
  ((minQueue cw d a).filter (fun u => u.2 == k)).map Prod.fst

/-- The variable ordered of the tie branch: the tied variables paired
with their neighbor counts, sorted descending. -/
def degQueue (cw : Crossword) (l : List Variable) :
    List (Variable × Nat) :=
  pySortDesc (fun p => p.2) (l.map (fun v => (v, (cw.neighbors v).length)))

/-- CrosswordCreator.select_unassigned_variable: sort the unassigned
variables ascending by domain size; on a tie of two or more at the
minimum, re-sort the tied ones descending by neighbor count.  The empty
case (Python ordered[0] raising IndexError) yields none. -/
def selectUnassignedVariable (cw : Crossword) (d : Domains)
    (a : Assignment) : Option Variable :=
  match minQueue cw d a with
  | [] => none
  | best :: _ =>
    if 1 < (minVars cw d a best.2).length then
      match degQueue cw (minVars cw d a best.2) with
      | [] => none
      | b2 :: _ => some b2.1
    else some best.1

/-- Python exceptions that the embedded code can raise. -/
inductive PyErr where
  | attributeError
  | indexError
  | recursionError
deriving DecidableEq

/-- The mutable state visible to CrosswordCreator.backtrack: the
assignment dict passed down the recursion and self.domains. -/
structure BState where
  assign : Assignment
  doms : Domains

/-- A call result together with the state at return or raise time. -/
abbrev BRes := Except PyErr (Option Assignment) × BState

/-- The for-loop of CrosswordCreator.backtrack over the ordered values
of var; next is the recursive call at the remaining depth.  When the
loop exhausts its values, the Python code executes assignment.remove(var),
an attribute that dict does not have, so the branch raises
AttributeError instead of returning None. -/
def btLoop (cw : Crossword) (var : Variable) (next : BState → BRes) :
    List Word → BState → BRes
  | [], st => (.error .attributeError, st)
  | w :: rest, st =>
    if consistent cw (dictUpdate st.assign var w) then
      match next { st with assign := dictUpdate st.assign var w } with
      | (.ok (some r), st2) => (.ok (some r), st2)
      | (.ok none, st2) => btLoop cw var next rest st2
      | (.error e, st2) => (.error e, st2)
    else btLoop cw var next rest
      { st with assign := dictUpdate st.assign var w }

/-- CrosswordCreator.backtrack with explicit recursion depth; depth
exhaustion maps to RecursionError (Python recursion limit), which is
unreachable at the depth solve supplies.  A missing unassigned variable
maps to the IndexError of ordered[0] in select_unassigned_variable. -/
def backtrack (cw : Crossword) : Nat → BState → BRes
  | 0, st => (.error .recursionError, st)
  | fuel + 1, st =>
    if assignmentComplete cw st.assign then (.ok (some st.assign), st)
    else
      match selectUnassignedVariable cw st.doms st.assign with
      | none => (.error .indexError, st)
      | some var =>
        btLoop cw var (backtrack cw fuel)
          (orderDomainValues cw st.doms var st.assign) st

/-- CrosswordCreator.solve: node consistency, then ac3 — whose boolean
result the Python code discards, keeping only the mutated domains —
then backtrack on the empty assignment. -/
def solve (cw : Crossword) : BRes :=
  let d1 := enforceNodeConsistency (initDomains cw)
  let d2 := (ac3 cw d1 none).2
  backtrack cw (cw.vars.length + 1) { assign := [], doms := d2 }

/-! Concrete puzzles used to evaluate the code on failing and succeeding
inputs. -/

/-- A length-2 across slot starting at the origin. -/
def varA2 : Variable := ⟨0, 0, false, 2⟩

/-- A length-2 down slot crossing varA2 at its first cell. -/
def varB2 : Variable := ⟨0, 0, true, 2⟩

/-- Two crossing length-2 slots requiring A[0] = B[1], with vocabulary
{ab, cd}: node consistency keeps both words, arc consistency empties
the domain of varA2. -/
def cwArcFail : Crossword :=
  { vars := [varA2, varB2]
    words := ["ab".toList, "cd".toList]
    overlaps := fun u v =>
      if u = varA2 && v = varB2 then some (0, 1)
      else if u = varB2 && v = varA2 then some (1, 0)
      else none }

/-- A length-3 across slot starting at the origin. -/
def varA3 : Variable := ⟨0, 0, false, 3⟩

/-- One length-3 slot with vocabulary {ab}: node consistency empties its
domain before any search. -/
def cwNodeFail : Crossword :=
  { vars := [varA3]
    words := ["ab".toList]
    overlaps := fun _ _ => none }

/-- A second length-3 slot, disjoint from varA3. -/
def varC3 : Variable := ⟨2, 0, false, 3⟩

/-- Two disjoint length-3 slots with the single word {cat}: the search
must fail on the uniqueness constraint. -/
def cwDup : Crossword :=
  { vars := [varA3, varC3]
    words := ["cat".toList]
    overlaps := fun _ _ => none }

/-- One length-3 slot with vocabulary {cat}: solvable. -/
def cwOne : Crossword :=
  { vars := [varA3]
    words := ["cat".toList]
    overlaps := fun _ _ => none }

/-! Second definitions for the refinement claim on ac3, written from the
words of the spec rather than from the source. -/

/-- Modelled from the spec, §4.1: revise removes from domains[x] every
word w such that no word w2 in domains[y] satisfies w[ia] == w2[ib],
and returns whether the domain of x changed; without an overlap it is a
no-op returning false. -/
def reviseFromSpec (cw : Crossword) (d : Domains) (x y : Variable) :
    Domains × Bool :=
  match cw.overlaps x y with
  | none => (d, false)
  | some (ia, ib) =>
    let kept := (d x).filter
      (fun w => (d y).any (fun w2 => charAt w ia == charAt w2 ib))
    (updateDom d x kept, decide (kept ≠ d x))

/-- Modelled from the spec, §4.1: the ac3 worklist loop.  For each arc
(x, y) popped, revise x against y; if the domain of x changed and is
now empty return false at once, if it changed and is non-empty enqueue
(z, x) for every neighbor z of x other than y; return true once the
worklist is empty. -/
def ac3LoopFromSpec (cw : Crossword) :
    Nat → Domains → List (Variable × Variable) → Option (Bool × Domains)
  | _, d, [] => some (true, d)
  | 0, _, _ :: _ => none
  | fuel + 1, d, (x, y) :: rest =>
    let r := reviseFromSpec cw d x y
    if r.2 then
      if (r.1 x).length = 0 then some (false, r.1)
      else ac3LoopFromSpec cw fuel r.1
        (rest ++ ((cw.neighbors x).filter (fun z => decide (z ≠ y))).map
          (fun z => (z, x)))
    else ac3LoopFromSpec cw fuel r.1 rest

/-- Modelled from the spec, §4.1: ac3 on the given arcs or on the full
arc set. -/
def ac3FromSpec (cw : Crossword) (d : Domains)
    (arcs : Option (List (Variable × Variable))) : Bool × Domains :=
  let q := match arcs with
    | none => initialArcs cw
    | some a => a
  (ac3LoopFromSpec cw (ac3Fuel cw d q) d q).getD (true, d)

/-! Helper lemmas. -/

/-- The revised flag of the source (some word lacks a correspondence)
equals the changed test of the spec (the filtered list differs). -/
lemma any_not_eq_decide_filter_ne {α : Type} [DecidableEq α]
    (p : α → Bool) (l : List α) :
    (l.any fun a => ! p a) = decide (l.filter p ≠ l) := by
  apply Bool.eq_iff_iff.mpr
  simp only [List.any_eq_true, decide_eq_true_eq, ne_eq,
    List.filter_eq_self, not_forall]
  constructor
  · rintro ⟨a, ha, hpa⟩
    exact ⟨a, ha, by simpa using hpa⟩
  · rintro ⟨a, ha, hpa⟩
    exact ⟨a, ha, by simpa using hpa⟩

/-- Bool form of membership-based inequality used by the two revise
definitions. -/
lemma decide_ne_eq_not_beq (z y : Variable) : decide (z ≠ y) = !(z == y) := by
  by_cases h : z = y <;> simp [h]

/-- The two revise definitions agree. -/
lemma reviseFromSpec_eq (cw : Crossword) (d : Domains) (x y : Variable) :
    reviseFromSpec cw d x y = revise cw d x y := by
  unfold reviseFromSpec revise
  cases hov : cw.overlaps x y with
  | none => rfl
  | some p =>
    obtain ⟨ia, ib⟩ := p
    simp only
    rw [← any_not_eq_decide_filter_ne]
    rfl

/-- C8: enforce_node_consistency is idempotent. -/
theorem enforce_node_consistency_idempotent (d : Domains) :
    enforceNodeConsistency (enforceNodeConsistency d)
      = enforceNodeConsistency d := by
  funext v
  simp [enforceNodeConsistency, List.filter_filter]

/-- C5: with an overlap (ia, ib) and in-range indices, revise keeps in
the domain of x exactly the words with a corresponding word in the
domain of y, touches no other domain, and reports true exactly when
some word had no correspondence; without an overlap it changes nothing
and reports false. -/
theorem revise_exact (cw : Crossword) (d : Domains) (x y : Variable)
    (hxy : x ≠ y) :
    (cw.overlaps x y = none → revise cw d x y = (d, false)) ∧
    (∀ ia ib, cw.overlaps x y = some (ia, ib) →
      (∀ w ∈ d x, ia < w.length) →
      (∀ w2 ∈ d y, ib < w2.length) →
      ((∀ w, w ∈ (revise cw d x y).1 x ↔
          w ∈ d x ∧ ∃ w2 ∈ d y, charAt w ia = charAt w2 ib) ∧
       (∀ v, v ≠ x → (revise cw d x y).1 v = d v) ∧
       ((revise cw d x y).2 = true ↔
          ∃ w ∈ d x, ∀ w2 ∈ d y, charAt w ia ≠ charAt w2 ib))) := by
  constructor
  · intro h
    simp [revise, h]
  · intro ia ib h _ _
    refine ⟨?_, ?_, ?_⟩
    · intro w
      simp [revise, h, updateDom, List.mem_filter, hasCorrespondence,
        List.any_eq_true]
    · intro v hv
      simp [revise, h, updateDom, hv]
    · simp [revise, h, hasCorrespondence, List.any_eq_true,
        List.any_eq_false]

/-- Witness for C5 at the crossing pair of cwArcFail after node
consistency: the flag is true because no word matches at the overlap. -/
theorem revise_exact_witness :
    varA2 ≠ varB2 ∧
    cwArcFail.overlaps varA2 varB2 = some (0, 1) ∧
    (∀ w ∈ enforceNodeConsistency (initDomains cwArcFail) varA2,
      0 < w.length) ∧
    (∀ w2 ∈ enforceNodeConsistency (initDomains cwArcFail) varB2,
      1 < w2.length) ∧
    ((revise cwArcFail (enforceNodeConsistency (initDomains cwArcFail))
        varA2 varB2).2 = true ↔
      ∃ w ∈ enforceNodeConsistency (initDomains cwArcFail) varA2,
        ∀ w2 ∈ enforceNodeConsistency (initDomains cwArcFail) varB2,
          charAt w 0 ≠ charAt w2 1) :=
  ⟨by decide, by decide, by decide, by decide,
    ((revise_exact cwArcFail
        (enforceNodeConsistency (initDomains cwArcFail)) varA2 varB2
        (by decide)).2 0 1 (by decide) (by decide) (by decide)).2.2⟩

/-- C6: the ac3 of the source coincides, at every fuel, domain store and
worklist, with the loop transcribed from the spec sentence, and so does
the packaged entry point. -/
theorem ac3_matches_spec (cw : Crossword) :
    (∀ fuel d q, ac3Loop cw fuel d q = ac3LoopFromSpec cw fuel d q) ∧
    (∀ d arcs, ac3 cw d arcs = ac3FromSpec cw d arcs) := by
  have hfun : ∀ y : Variable,
      (fun z => decide (z ≠ y)) = (fun z => !(z == y)) := by
    intro y
    funext z
    exact decide_ne_eq_not_beq z y
  have hloop : ∀ fuel d q,
      ac3Loop cw fuel d q = ac3LoopFromSpec cw fuel d q := by
    intro fuel
    induction fuel with
    | zero =>
      intro d q
      cases q with
      | nil => rfl
      | cons a rest => rfl
    | succ f ih =>
      intro d q
      cases q with
      | nil => rfl
      | cons a rest =>
        obtain ⟨x, y⟩ := a
        show ac3Loop cw (f + 1) d ((x, y) :: rest)
          = ac3LoopFromSpec cw (f + 1) d ((x, y) :: rest)
        unfold ac3Loop ac3LoopFromSpec
        rw [reviseFromSpec_eq, hfun y]
        by_cases hrev : (revise cw d x y).2
        · simp only [hrev, if_true]
          by_cases hemp : ((revise cw d x y).1 x).length = 0
          · simp [hemp]
          · simp only [hemp, if_false]
            exact ih _ _
        · simp only [hrev]
          simp only [Bool.false_eq_true, if_false]
          exact ih _ _
  refine ⟨hloop, ?_⟩
  intro d arcs
  unfold ac3 ac3FromSpec
  cases arcs with
  | none => simp [hloop]
  | some a => simp [hloop]

/-! Termination of ac3: the fuel computed by ac3Fuel always suffices. -/

/-- Neighbors are puzzle variables. -/
lemma mem_neighbors_mem_vars (cw : Crossword) (v u : Variable)
    (h : u ∈ cw.neighbors v) : u ∈ cw.vars :=
  (List.mem_filter.mp h).1

/-- Every element is bounded by the foldr of max. -/
lemma le_foldr_max (l : List Nat) (x : Nat) (hx : x ∈ l) :
    x ≤ l.foldr max 0 := by
  induction l with
  | nil => cases hx
  | cons a t ih =>
    rcases List.mem_cons.mp hx with rfl | hxt
    · exact Nat.le_max_left _ _
    · exact Nat.le_trans (ih hxt) (Nat.le_max_right _ _)

/-- The neighbor count of a puzzle variable is at most maxNbrCount. -/
lemma neighbors_le_maxNbrCount (cw : Crossword) (v : Variable)
    (hv : v ∈ cw.vars) : (cw.neighbors v).length ≤ maxNbrCount cw :=
  le_foldr_max _ _ (List.mem_map.mpr ⟨v, hv, rfl⟩)

/-- First components of re-enqueued arcs are puzzle variables. -/
lemma requeuedArcs_fst_mem (cw : Crossword) (x y : Variable)
    (a : Variable × Variable) (ha : a ∈ requeuedArcs cw x y) :
    a.1 ∈ cw.vars := by
  obtain ⟨z, hz, rfl⟩ := List.mem_map.mp ha
  exact mem_neighbors_mem_vars cw x z (List.mem_filter.mp hz).1

/-- At most one arc per neighbor is re-enqueued. -/
lemma requeuedArcs_length_le (cw : Crossword) (x y : Variable)
    (hx : x ∈ cw.vars) :
    (requeuedArcs cw x y).length ≤ maxNbrCount cw := by
  unfold requeuedArcs
  rw [List.length_map]
  exact Nat.le_trans (List.length_filter_le _ _)
    (neighbors_le_maxNbrCount cw x hx)

/-- Pointwise bound on mapped sums. -/
lemma sum_map_le_sum_map (f g : Variable → Nat) :
    ∀ L : List Variable, (∀ v, f v ≤ g v) →
      (L.map f).sum ≤ (L.map g).sum := by
  intro L h
  induction L with
  | nil => simp
  | cons a t ih => simpa using Nat.add_le_add (h a) ih

/-- Strict pointwise bound on mapped sums at a member. -/
lemma sum_map_lt_sum_map (f g : Variable → Nat) :
    ∀ L : List Variable, (∀ v, f v ≤ g v) →
      ∀ x ∈ L, f x < g x → (L.map f).sum < (L.map g).sum := by
  intro L h x hx hfg
  induction L with
  | nil => cases hx
  | cons a t ih =>
    rcases List.mem_cons.mp hx with rfl | hxt
    · simpa using Nat.add_lt_add_of_lt_of_le hfg (sum_map_le_sum_map f g t h)
    · simpa using Nat.add_lt_add_of_le_of_lt (h a) (ih hxt)

/-- totalDomainSize only depends on the pointwise values of the store. -/
lemma totalDomainSize_congr (cw : Crossword) (d d' : Domains)
    (h : ∀ v, d' v = d v) :
    totalDomainSize cw d' = totalDomainSize cw d := by
  unfold totalDomainSize
  exact congrArg List.sum (List.map_congr_left (fun v _ => by rw [h v]))

/-- A strict shrink at a puzzle variable strictly shrinks the total. -/
lemma totalDomainSize_lt (cw : Crossword) (d d' : Domains) (x : Variable)
    (hx : x ∈ cw.vars)
    (hle : ∀ v, (d' v).length ≤ (d v).length)
    (hlt : (d' x).length < (d x).length) :
    totalDomainSize cw d' < totalDomainSize cw d :=
  sum_map_lt_sum_map _ _ cw.vars hle x hx hlt

/-- When the revised flag is false, the store is pointwise unchanged. -/
lemma revise_false_doms (cw : Crossword) (d : Domains) (x y : Variable)
    (h : (revise cw d x y).2 = false) :
    ∀ v, (revise cw d x y).1 v = d v := by
  unfold revise at h ⊢
  cases hov : cw.overlaps x y with
  | none => simp
  | some p =>
    obtain ⟨ia, ib⟩ := p
    rw [hov] at h
    simp only [List.any_eq_false] at h
    have hall : ∀ w ∈ d x, hasCorrespondence (d y) ia ib w = true := by
      intro w hw
      have := h w hw
      simpa using this
    intro v
    by_cases hv : v = x
    · subst hv
      simp [updateDom, List.filter_eq_self.mpr hall]
    · simp [updateDom, hv]

/-- When the revised flag is true, the domain of x strictly shrank and
no domain grew. -/
lemma revise_true_shrinks (cw : Crossword) (d : Domains) (x y : Variable)
    (h : (revise cw d x y).2 = true) :
    ((revise cw d x y).1 x).length < (d x).length ∧
      ∀ v, ((revise cw d x y).1 v).length ≤ (d v).length := by
  unfold revise at h ⊢
  cases hov : cw.overlaps x y with
  | none => rw [hov] at h; cases h
  | some p =>
    obtain ⟨ia, ib⟩ := p
    rw [hov] at h
    obtain ⟨w, hw, hnw⟩ := List.any_eq_true.mp h
    have hpw : hasCorrespondence (d y) ia ib w = false := by
      simpa using hnw
    have hsub := List.filter_sublist
      (p := hasCorrespondence (d y) ia ib) (d x)
    have hne : (d x).filter (hasCorrespondence (d y) ia ib) ≠ d x := by
      intro he
      have := List.filter_eq_self.mp he w hw
      rw [hpw] at this
      cases this
    constructor
    · simp only [updateDom, if_pos rfl]
      exact hsub.length_le.lt_or_eq.elim (fun hlt => hlt)
        (fun he => absurd (hsub.eq_of_length he) hne)
    · intro v
      by_cases hv : v = x
      · subst hv
        simp only [updateDom, if_pos rfl]
        exact hsub.length_le
      · simp [updateDom, hv]

/-- Core termination argument: with more fuel than the queue length plus
the product of total domain size and maximal neighbor count, the ac3
worklist loop completes. -/
lemma ac3Loop_some (cw : Crossword) :
    ∀ fuel d q, (∀ a ∈ q, a.1 ∈ cw.vars) →
      q.length + totalDomainSize cw d * maxNbrCount cw < fuel →
      (ac3Loop cw fuel d q).isSome := by
  intro fuel
  induction fuel with
  | zero =>
    intro d q _ hlt
    exact absurd hlt (Nat.not_lt_zero _)
  | succ f ih =>
    intro d q hq hlt
    cases q with
    | nil => simp [ac3Loop]
    | cons a rest =>
      obtain ⟨x, y⟩ := a
      have hxv : x ∈ cw.vars := hq (x, y) (List.mem_cons_self _ _)
      simp only [ac3Loop]
      by_cases hrev : (revise cw d x y).2 = true
      · simp only [hrev, if_true]
        by_cases hemp : ((revise cw d x y).1 x).length = 0
        · simp [hemp]
        · simp only [hemp, if_false]
          obtain ⟨hshrink, hmono⟩ := revise_true_shrinks cw d x y hrev
          apply ih
          · intro a ha
            rcases List.mem_append.mp ha with h1 | h2
            · exact hq a (List.mem_cons_of_mem _ h1)
            · exact requeuedArcs_fst_mem cw x y a h2
          · have hS : totalDomainSize cw (revise cw d x y).1 + 1
                ≤ totalDomainSize cw d :=
              totalDomainSize_lt cw d (revise cw d x y).1 x hxv hmono hshrink
            have he : (requeuedArcs cw x y).length ≤ maxNbrCount cw :=
              requeuedArcs_length_le cw x y hxv
            have hmul : totalDomainSize cw (revise cw d x y).1 * maxNbrCount cw
                + maxNbrCount cw ≤ totalDomainSize cw d * maxNbrCount cw := by
              have h1 : (totalDomainSize cw (revise cw d x y).1 + 1)
                  * maxNbrCount cw
                  ≤ totalDomainSize cw d * maxNbrCount cw :=
                Nat.mul_le_mul_right _ hS
              calc totalDomainSize cw (revise cw d x y).1 * maxNbrCount cw
                  + maxNbrCount cw
                  = (totalDomainSize cw (revise cw d x y).1 + 1)
                    * maxNbrCount cw := by ring
                _ ≤ totalDomainSize cw d * maxNbrCount cw := h1
            rw [List.length_append]
            simp only [List.length_cons] at hlt
            omega
      · simp only [hrev]
        simp only [Bool.false_eq_true, if_false]
        apply ih
        · intro a ha
          exact hq a (List.mem_cons_of_mem _ ha)
        · have hSe : totalDomainSize cw (revise cw d x y).1
              = totalDomainSize cw d :=
            totalDomainSize_congr cw d (revise cw d x y).1
              (revise_false_doms cw d x y (Bool.not_eq_true _ ▸ by
                simpa using hrev))
          rw [hSe]
          simp only [List.length_cons] at hlt
          omega

/-- C7: for every domain store and every arc list over the puzzle
variables, the ac3 worklist loop terminates with a definite result on
the fuel ac3 supplies. -/
theorem ac3_terminates (cw : Crossword) (d : Domains)
    (q : List (Variable × Variable))
    (hq : ∀ a ∈ q, a.1 ∈ cw.vars) :
    ∃ r, ac3Loop cw (ac3Fuel cw d q) d q = some r := by
  have h := ac3Loop_some cw (ac3Fuel cw d q) d q hq (by unfold ac3Fuel; omega)
  exact Option.isSome_iff_exists.mp h

/-- Witness for C7 on the full arc set of cwArcFail. -/
theorem ac3_terminates_witness :
    (∀ a ∈ initialArcs cwArcFail, a.1 ∈ cwArcFail.vars) ∧
    ∃ r, ac3Loop cwArcFail
      (ac3Fuel cwArcFail (initDomains cwArcFail) (initialArcs cwArcFail))
      (initDomains cwArcFail) (initialArcs cwArcFail) = some r :=
  ⟨by decide, ac3_terminates cwArcFail (initDomains cwArcFail)
    (initialArcs cwArcFail) (by decide)⟩

/-! The backtracking search never touches the domain store. -/

/-- The value loop passes the domain store through untouched whenever
the recursive call does. -/
lemma btLoop_doms (cw : Crossword) (var : Variable) (next : BState → BRes)
    (hnext : ∀ s, (next s).2.doms = s.doms) :
    ∀ vals st, (btLoop cw var next vals st).2.doms = st.doms := by
  intro vals
  induction vals with
  | nil => intro st; rfl
  | cons w rest ih =>
    intro st
    rw [btLoop]
    by_cases hc : consistent cw (dictUpdate st.assign var w) = true
    · rw [if_pos hc]
      rcases hres : next { st with assign := dictUpdate st.assign var w }
        with ⟨res, st2⟩
      have hd : st2.doms = st.doms := by
        have h := hnext { st with assign := dictUpdate st.assign var w }
        rw [hres] at h
        exact h
      cases res with
      | ok o =>
        cases o with
        | some r => exact hd
        | none => exact (ih st2).trans hd
      | error e => exact hd
    · rw [if_neg hc]
      exact ih _

/-- C10: a backtrack call, successful or failed, returns with exactly
the domain store it was given: the branch step touches only the
assignment. -/
theorem backtrack_preserves_domains (cw : Crossword) (fuel : Nat)
    (st : BState) : (backtrack cw fuel st).2.doms = st.doms := by
  induction fuel generalizing st with
  | zero => rfl
  | succ f ih =>
    rw [backtrack]
    by_cases hc : assignmentComplete cw st.assign = true
    · rw [if_pos hc]
    · rw [if_neg hc]
      cases hsel : selectUnassignedVariable cw st.doms st.assign with
      | none => rfl
      | some var => exact btLoop_doms cw var _ (fun s => ih s) _ _

/-! Soundness of a successful search: the returned assignment is
complete and consistent. -/

/-- The empty assignment is consistent for every puzzle. -/
lemma consistent_nil (cw : Crossword) : consistent cw [] = true := by
  unfold consistent
  simp only [List.all_nil, List.map_nil, List.dedup_nil, List.length_nil,
    Bool.true_and, beq_self_eq_true, List.all_eq_true]
  intro v1 _ v2 _
  by_cases h : v1 = v2
  · simp [h]
  · simp only [h, if_false]
    cases cw.overlaps v1 v2 with
    | none => rfl
    | some p => obtain ⟨ia, ib⟩ := p; rfl

/-- The value loop only returns assignments produced by a recursive call
on a consistency-checked extension. -/
lemma btLoop_sound (cw : Crossword) (var : Variable) (next : BState → BRes)
    (hnext : ∀ s r s2, consistent cw s.assign = true →
      next s = (.ok (some r), s2) →
      assignmentComplete cw r = true ∧ consistent cw r = true) :
    ∀ vals st r s2, btLoop cw var next vals st = (.ok (some r), s2) →
      assignmentComplete cw r = true ∧ consistent cw r = true := by
  intro vals
  induction vals with
  | nil =>
    intro st r s2 h
    rw [btLoop] at h
    simp at h
  | cons w rest ih =>
    intro st r s2 h
    rw [btLoop] at h
    by_cases hc : consistent cw (dictUpdate st.assign var w) = true
    · rw [if_pos hc] at h
      rcases hres : next { st with assign := dictUpdate st.assign var w }
        with ⟨res, st2⟩
      rw [hres] at h
      cases res with
      | ok o =>
        cases o with
        | some r0 =>
          have hr : r0 = r ∧ st2 = s2 := by
            constructor
            · have := congrArg Prod.fst h
              simpa using this
            · have := congrArg Prod.snd h
              simpa using this
          obtain ⟨hr0, _⟩ := hr
          subst hr0
          exact hnext _ _ _ hc hres
        | none => exact ih st2 r s2 h
      | error e => simp at h
    · rw [if_neg hc] at h
      exact ih _ r s2 h

/-- A backtrack call from a consistent assignment only succeeds with a
complete, consistent assignment. -/
lemma backtrack_sound (cw : Crossword) :
    ∀ fuel st r s2, consistent cw st.assign = true →
      backtrack cw fuel st = (.ok (some r), s2) →
      assignmentComplete cw r = true ∧ consistent cw r = true := by
  intro fuel
  induction fuel with
  | zero =>
    intro st r s2 _ h
    rw [backtrack] at h
    simp at h
  | succ f ih =>
    intro st r s2 hcons h
    rw [backtrack] at h
    by_cases hcomp : assignmentComplete cw st.assign = true
    · rw [if_pos hcomp] at h
      have hr : st.assign = r := by
        have := congrArg Prod.fst h
        simpa using this
      subst hr
      exact ⟨hcomp, hcons⟩
    · rw [if_neg hcomp] at h
      cases hsel : selectUnassignedVariable cw st.doms st.assign with
      | none =>
        rw [hsel] at h
        simp at h
      | some var =>
        rw [hsel] at h
        exact btLoop_sound cw var (backtrack cw f)
          (fun s r0 s0 hc hn => ih s r0 s0 hc hn) _ st r s2 h

/-- The code-level consistent check implies the claim-level conditions. -/
lemma consistent_implies_claim (cw : Crossword) (a : Assignment)
    (h : consistent cw a = true) : ClaimConsistent cw a := by
  unfold consistent at h
  rw [Bool.and_eq_true, Bool.and_eq_true] at h
  obtain ⟨⟨hlen, hdedup⟩, hover⟩ := h
  refine ⟨?_, ?_, ?_⟩
  · intro p hp
    have := List.all_eq_true.mp hlen p hp
    simpa using this
  · have hnodup : (a.map Prod.snd).Nodup := by
      have hl : (a.map Prod.snd).dedup.length = (a.map Prod.snd).length := by
        simpa using hdedup
      exact List.dedup_eq_self.mp ((List.dedup_sublist _).eq_of_length hl)
    intro p hp q hq hne heq
    exact hne (congrArg Prod.fst
      (List.inj_on_of_nodup_map hnodup hp hq heq))
  · intro v1 hv1 v2 hv2 hne ia ib hov w1 w2 hw1 hw2
    have h1 := List.all_eq_true.mp hover v1 hv1
    have h2 := List.all_eq_true.mp h1 v2 hv2
    rw [if_neg hne, hov, hw1, hw2] at h2
    simpa using h2

/-- C4: whenever solve returns an assignment, it is complete and
satisfies the consistency conditions of the claim. -/
theorem solve_sound (cw : Crossword) (r : Assignment) (st : BState)
    (h : solve cw = (.ok (some r), st)) :
    assignmentComplete cw r = true ∧ ClaimConsistent cw r := by
  unfold solve at h
  have hs := backtrack_sound cw (cw.vars.length + 1)
    { assign := [],
      doms := (ac3 cw (enforceNodeConsistency (initDomains cw)) none).2 }
    r st (consistent_nil cw) h
  exact ⟨hs.1, consistent_implies_claim cw r hs.2⟩

/-- Witness for C4: on the solvable one-slot puzzle cwOne, solve
returns the complete, claim-consistent assignment {varA3: cat}. -/
theorem solve_sound_witness :
    ∃ r st, solve cwOne = (.ok (some r), st) ∧
      assignmentComplete cwOne r = true ∧ ClaimConsistent cwOne r :=
  ⟨[(varA3, "cat".toList)], (solve cwOne).2, rfl,
    solve_sound cwOne [(varA3, "cat".toList)] (solve cwOne).2 rfl⟩

/-! The minimum-remaining-values and degree heuristics of
select_unassigned_variable. -/

/-- Sorting ascending by key puts a key-minimal element first. -/
lemma pySortAsc_head_min {α : Type} (key : α → Nat) (l : List α)
    (b : α) (t : List α) (h : pySortAsc key l = b :: t) :
    ∀ x ∈ l, key b ≤ key x := by
  intro x hx
  have hs : List.Sorted (keyLe key) (b :: t) := by
    rw [← h]
    exact List.sorted_insertionSort (keyLe key) l
  have hx2 : x ∈ b :: t := by
    rw [← h]
    exact (List.perm_insertionSort (keyLe key) l).symm.subset hx
  rcases List.mem_cons.mp hx2 with rfl | hxt
  · exact Nat.le_refl _
  · exact List.rel_of_sorted_cons hs x hxt

/-- Sorting descending by key puts a key-maximal element first. -/
lemma pySortDesc_head_max {α : Type} (key : α → Nat) (l : List α)
    (b : α) (t : List α) (h : pySortDesc key l = b :: t) :
    ∀ x ∈ l, key x ≤ key b := by
  intro x hx
  have hs : List.Sorted (keyGe key) (b :: t) := by
    rw [← h]
    exact List.sorted_insertionSort (keyGe key) l
  have hx2 : x ∈ b :: t := by
    rw [← h]
    exact (List.perm_insertionSort (keyGe key) l).symm.subset hx
  rcases List.mem_cons.mp hx2 with rfl | hxt
  · exact Nat.le_refl _
  · exact List.rel_of_sorted_cons hs x hxt

/-- The head of a sort is an element of the sorted list. -/
lemma pySortAsc_head_mem {α : Type} (key : α → Nat) (l : List α)
    (b : α) (t : List α) (h : pySortAsc key l = b :: t) : b ∈ l := by
  have : b ∈ b :: t := List.mem_cons_self _ _
  rw [← h] at this
  exact (List.perm_insertionSort (keyLe key) l).subset this

/-- The head of a descending sort is an element of the sorted list. -/
lemma pySortDesc_head_mem {α : Type} (key : α → Nat) (l : List α)
    (b : α) (t : List α) (h : pySortDesc key l = b :: t) : b ∈ l := by
  have : b ∈ b :: t := List.mem_cons_self _ _
  rw [← h] at this
  exact (List.perm_insertionSort (keyGe key) l).subset this

/-- Shape of the entries of the unassigned list. -/
lemma unassignedPairs_mem (cw : Crossword) (d : Domains) (a : Assignment)
    (p : Variable × Nat) (hp : p ∈ unassignedPairs cw d a) :
    p.1 ∈ cw.vars ∧ dictGet a p.1 = none ∧ p.2 = (d p.1).length := by
  obtain ⟨v, hv, rfl⟩ := List.mem_map.mp hp
  have hf := List.mem_filter.mp hv
  exact ⟨hf.1, Option.isNone_iff_eq_none.mp hf.2, rfl⟩

/-- Every unassigned puzzle variable contributes an entry. -/
lemma unassignedPairs_intro (cw : Crossword) (d : Domains)
    (a : Assignment) (v : Variable) (hv : v ∈ cw.vars)
    (hn : dictGet a v = none) :
    (v, (d v).length) ∈ unassignedPairs cw d a :=
  List.mem_map.mpr ⟨v, List.mem_filter.mpr
    ⟨hv, Option.isNone_iff_eq_none.mpr hn⟩, rfl⟩

/-- Members of min_unassigned are unassigned puzzle variables with
domain size k. -/
lemma minVars_mem (cw : Crossword) (d : Domains) (a : Assignment)
    (k : Nat) (u : Variable) (hu : u ∈ minVars cw d a k) :
    u ∈ cw.vars ∧ dictGet a u = none ∧ (d u).length = k := by
  obtain ⟨p, hp, rfl⟩ := List.mem_map.mp hu
  have hf := List.mem_filter.mp hp
  have hup : p ∈ unassignedPairs cw d a :=
    (List.perm_insertionSort (keyLe fun p : Variable × Nat => p.2)
      (unassignedPairs cw d a)).subset hf.1
  obtain ⟨h1, h2, h3⟩ := unassignedPairs_mem cw d a p hup
  refine ⟨h1, h2, ?_⟩
  have hk : p.2 = k := by
    have := hf.2
    simpa using this
  rw [← h3, hk]

/-- Every unassigned puzzle variable of domain size k is a member of
min_unassigned for k. -/
lemma minVars_intro (cw : Crossword) (d : Domains) (a : Assignment)
    (k : Nat) (u : Variable) (hv : u ∈ cw.vars)
    (hn : dictGet a u = none) (hk : (d u).length = k) :
    u ∈ minVars cw d a k := by
  have hup : (u, (d u).length) ∈ unassignedPairs cw d a :=
    unassignedPairs_intro cw d a u hv hn
  have hmq : (u, (d u).length) ∈ minQueue cw d a :=
    (List.perm_insertionSort (keyLe fun p : Variable × Nat => p.2)
      (unassignedPairs cw d a)).symm.subset hup
  exact List.mem_map.mpr ⟨(u, (d u).length),
    List.mem_filter.mpr ⟨hmq, by simp [hk]⟩, rfl⟩

/-- Two distinct members force length at least two. -/
lemma one_lt_length_of_two_mem {α : Type} {l : List α} {a b : α}
    (ha : a ∈ l) (hb : b ∈ l) (hne : a ≠ b) : 1 < l.length := by
  cases l with
  | nil => cases ha
  | cons x xs =>
    cases xs with
    | nil =>
      have ha1 : a = x := by simpa using ha
      have hb1 : b = x := by simpa using hb
      exact absurd (ha1.trans hb1.symm) hne
    | cons y ys => simp only [List.length_cons]; omega

/-- C9: when some variable is unassigned, select_unassigned_variable
returns an unassigned puzzle variable of minimal domain size among the
unassigned ones, and when the minimum is attained by more than one
variable the returned one has the largest neighbor count among them. -/
theorem select_mrv_degree (cw : Crossword) (d : Domains) (a : Assignment)
    (hex : ∃ v ∈ cw.vars, dictGet a v = none) :
    ∃ u, selectUnassignedVariable cw d a = some u ∧
      u ∈ cw.vars ∧ dictGet a u = none ∧
      (∀ w ∈ cw.vars, dictGet a w = none →
        (d u).length ≤ (d w).length) ∧
      ((∃ v1 ∈ cw.vars, ∃ v2 ∈ cw.vars, v1 ≠ v2 ∧
          dictGet a v1 = none ∧ dictGet a v2 = none ∧
          (d v1).length = (d u).length ∧ (d v2).length = (d u).length) →
        ∀ w ∈ cw.vars, dictGet a w = none →
          (d w).length = (d u).length →
          (cw.neighbors w).length ≤ (cw.neighbors u).length) := by
  obtain ⟨v0, hv0, hn0⟩ := hex
  have hup0 : (v0, (d v0).length) ∈ unassignedPairs cw d a :=
    unassignedPairs_intro cw d a v0 hv0 hn0
  cases hmq : minQueue cw d a with
  | nil =>
    exfalso
    have : (v0, (d v0).length) ∈ minQueue cw d a :=
      (List.perm_insertionSort (keyLe fun p : Variable × Nat => p.2)
        (unassignedPairs cw d a)).symm.subset hup0
    rw [hmq] at this
    cases this
  | cons best t =>
    have hbmem : best ∈ unassignedPairs cw d a :=
      pySortAsc_head_mem _ _ _ _ hmq
    obtain ⟨hbv, hbn, hbk⟩ := unassignedPairs_mem cw d a best hbmem
    have hbmin : ∀ w ∈ cw.vars, dictGet a w = none →
        best.2 ≤ (d w).length := by
      intro w hw hwn
      exact pySortAsc_head_min _ _ _ _ hmq (w, (d w).length)
        (unassignedPairs_intro cw d a w hw hwn)
    rw [selectUnassignedVariable, hmq]
    dsimp only
    by_cases htie : 1 < (minVars cw d a best.2).length
    · rw [if_pos htie]
      have hmune : minVars cw d a best.2 ≠ [] := by
        intro hnil
        rw [hnil] at htie
        simp at htie
      cases hdq : degQueue cw (minVars cw d a best.2) with
      | nil =>
        exfalso
        apply hmune
        have hperm := List.perm_insertionSort
          (keyGe fun p : Variable × Nat => p.2)
          ((minVars cw d a best.2).map
            (fun v => (v, (cw.neighbors v).length)))
        have hsort : List.insertionSort
            (keyGe fun p : Variable × Nat => p.2)
            ((minVars cw d a best.2).map
              (fun v => (v, (cw.neighbors v).length))) = [] := hdq
        rw [hsort] at hperm
        have hl := hperm.length_eq
        simp only [List.length_nil, List.length_map] at hl
        exact List.length_eq_zero.mp hl.symm
      | cons b2 t2 =>
        have hb2mem : b2 ∈ (minVars cw d a best.2).map
            (fun v => (v, (cw.neighbors v).length)) :=
          pySortDesc_head_mem _ _ _ _ hdq
        obtain ⟨u, hu, hub⟩ := List.mem_map.mp hb2mem
        obtain ⟨huv, hun, huk⟩ := minVars_mem cw d a best.2 u hu
        refine ⟨b2.1, rfl, ?_, ?_, ?_, ?_⟩
        · rw [← hub]
          exact huv
        · rw [← hub]
          exact hun
        · rw [← hub]
          intro w hw hwn
          rw [huk]
          exact hbmin w hw hwn
        · intro _ w hw hwn hwk
          have hwmin : w ∈ minVars cw d a best.2 := by
            apply minVars_intro cw d a best.2 w hw hwn
            rw [hwk, ← hub]
            exact huk
          have hwdq : (w, (cw.neighbors w).length)
              ∈ (minVars cw d a best.2).map
                (fun v => (v, (cw.neighbors v).length)) :=
            List.mem_map.mpr ⟨w, hwmin, rfl⟩
          have := pySortDesc_head_max _ _ _ _ hdq
            (w, (cw.neighbors w).length) hwdq
          have hb2shape : b2.2 = (cw.neighbors b2.1).length := by
            rw [← hub]
          rw [hb2shape] at this
          exact this
    · rw [if_neg htie]
      refine ⟨best.1, rfl, hbv, hbn, ?_, ?_⟩
      · intro w hw hwn
        rw [← hbk]
        exact hbmin w hw hwn
      · intro htwo
        exfalso
        obtain ⟨v1, hv1, v2, hv2, hne, hn1, hn2, hk1, hk2⟩ := htwo
        have h1 : v1 ∈ minVars cw d a best.2 :=
          minVars_intro cw d a best.2 v1 hv1 hn1 (by rw [hk1, ← hbk])
        have h2 : v2 ∈ minVars cw d a best.2 :=
          minVars_intro cw d a best.2 v2 hv2 hn2 (by rw [hk2, ← hbk])
        exact htie (one_lt_length_of_two_mem h1 h2 hne)

/-- Witness for C9 on cwDup with the empty assignment: both variables
are unassigned with equal singleton domains, so the degree tie-break
applies. -/
theorem select_mrv_degree_witness :
    (∃ v ∈ cwDup.vars, dictGet [] v = none) ∧
    ∃ u, selectUnassignedVariable cwDup (initDomains cwDup) [] = some u ∧
      u ∈ cwDup.vars ∧ dictGet [] u = none ∧
      (∀ w ∈ cwDup.vars, dictGet [] w = none →
        (initDomains cwDup u).length ≤ (initDomains cwDup w).length) ∧
      ((∃ v1 ∈ cwDup.vars, ∃ v2 ∈ cwDup.vars, v1 ≠ v2 ∧
          dictGet [] v1 = none ∧ dictGet [] v2 = none ∧
          (initDomains cwDup v1).length = (initDomains cwDup u).length ∧
          (initDomains cwDup v2).length = (initDomains cwDup u).length) →
        ∀ w ∈ cwDup.vars, dictGet [] w = none →
          (initDomains cwDup w).length = (initDomains cwDup u).length →
          (cwDup.neighbors w).length ≤ (cwDup.neighbors u).length) :=
  ⟨by decide, select_mrv_degree cwDup (initDomains cwDup) [] (by decide)⟩

/-- C1: on cwArcFail, ac3 over the full arc set reports inconsistency
(the domain of varA2 collapses), yet solve does not return the
no-solution outcome None: the Python code discards the ac3 result and
invokes backtrack, which raises AttributeError on the emptied domain.
The AttributeError can only be produced inside backtrack. -/
theorem solve_ignores_ac3_failure :
    (ac3 cwArcFail (enforceNodeConsistency (initDomains cwArcFail))
      none).1 = false ∧
    (solve cwArcFail).1 = .error .attributeError ∧
    (solve cwArcFail).1 ≠ .ok none := by
  refine ⟨by decide, rfl, ?_⟩
  intro h
  have h1 : (solve cwArcFail).1 = .error .attributeError := rfl
  rw [h1] at h
  exact Except.noConfusion h

/-- C2: on cwNodeFail (node consistency empties the single domain, the
search space is exhausted at once) solve raises AttributeError from the
terminal-failure path of backtrack, assignment.remove(var), instead of
returning the None outcome. -/
theorem solve_raises_attribute_error :
    (solve cwNodeFail).1 = .error .attributeError ∧
    ∀ o : Option Assignment, (solve cwNodeFail).1 ≠ .ok o := by
  refine ⟨rfl, ?_⟩
  intro o h
  have h1 : (solve cwNodeFail).1 = .error .attributeError := rfl
  rw [h1] at h
  exact Except.noConfusion h

/-- C3: on cwDup from the empty assignment, the failing backtrack call
does not return a failure value with the entry state restored: it
raises AttributeError while both tentative bindings are still in the
assignment, which therefore differs from its state before the call. -/
theorem backtrack_failure_mutates_assignment :
    (backtrack cwDup 3 ⟨[], initDomains cwDup⟩).1
      = .error .attributeError ∧
    (backtrack cwDup 3 ⟨[], initDomains cwDup⟩).2.assign
      = [(varA3, "cat".toList), (varC3, "cat".toList)] ∧
    (backtrack cwDup 3 ⟨[], initDomains cwDup⟩).2.assign
      ≠ ([] : Assignment) :=
  ⟨rfl, by decide, by decide⟩

end CrosswordGen
